import Mathlib

/-!
Shallow embedding of the gin-logger aggregation engine (package slogger).

Modelling conventions:
* Go `time.Duration` and `time.Time` values are idealised as `Int`
  (nanosecond counts); the claims under study do not concern int64 overflow.
* Go `float64` arithmetic in the emitter is idealised as `Rat`
  (the concrete values appearing in the claims are exactly representable).
* The Go map `map[string]logEntry` is modelled as an association list with
  insert-or-replace semantics matching map assignment.
* The buffered channel between producers and the aggregator goroutine is
  modelled as the list of buffered records together with its capacity.
* `time.Now()` is passed in explicitly as a `now : Int` parameter.
-/

/-- Embeds the `extraFields` struct of printlog.go. -/
structure extraFields where
  value : String := ""
  found : Bool := false
  deriving Repr, DecidableEq

/-- Embeds the `logEntry` struct of printlog.go, with the embedded
`aggregateDetails` and `realtimeDetails` structs flattened (Go struct
embedding promotes their fields).  Default values are the Go zero values,
so that a Go composite literal that omits a field is translated by omitting
it here. The anonymous unused `int` field of `aggregateDetails` is dropped. -/
structure logEntry where
  created : Int := 0
  remoteIp : String := ""
  ua : String := ""
  method : String := ""
  aggregatePath : String := ""
  statusCode : Int := 0
  count : Int := 0
  proto : String := ""
  isBotDetectorEnabled : Bool := false
  isBot : Int := 0
  isAggregate : Bool := false
  lastMod : Int := 0
  sumLatency : Int := 0
  maxLatency : Int := 0
  minLatency : Int := 0
  sumSizeRespoBody : Int := 0
  errorMessage : String := ""
  queryString : String := ""
  path : String := ""
  headers : List (String × String) := []
  referer : String := ""
  latency : Int := 0
  responseBodySize : Int := 0
  extra : List (String × extraFields) := []
  ip : String := ""
  deriving Repr, DecidableEq

/-- Embeds the `conf` struct of config.go.  The `loggingHandler` (an slog
sink) is not modelled: emission is modelled by returning summary values.
`aggregationQueueSize` is the buffered-channel capacity. -/
structure conf where
  botDetectionService : Option (String → Bool) := none
  logQueryString : Bool := false
  excludedPaths : List String := []
  logHeaders : Bool := false
  aggregationQueueSize : Nat := 0
  defaultLogMessage : String := ""
  clientIPHeaders : List String := []
  logHeadersWithName : List (String × List String) := []
  pathMappingFunction : String → String → Int → String := fun _ _ _ => ""
  isAggregationEnabled : Bool := false
  aggregationInterval : Int := 0
  userAgentHeaders : List String := []
  staticLogEntries : List (String × String) := []

/-- The default `pathMappingFunction` installed by `configure` (config.go
lines 153-163). -/
def defaultPathMapping : String → String → Int → String :=
  fun route _path statusCode =>
    if route == "" then
      if 400 ≤ statusCode ∧ statusCode < 500 then "error_4xx"
      else if 500 ≤ statusCode then "error_5xx"
      else "missing_route"
    else route

/-- The configuration produced by `configure` with no options (config.go
lines 148-172): aggregation disabled, queue size 100, interval 10s (in ns). -/
def defaultConf : conf :=
  { botDetectionService := none
    defaultLogMessage := "logger v1"
    pathMappingFunction := defaultPathMapping
    excludedPaths := []
    clientIPHeaders := []
    userAgentHeaders := []
    logHeadersWithName := []
    staticLogEntries := []
    isAggregationEnabled := false
    aggregationQueueSize := 100
    aggregationInterval := 10000000000 }

/-- Embeds `botDetectorInfo` (aggregator.go lines 78-90).  The optional
`botDetectionService` collaborator is its `IsBot` operation, `none` when no
detector is configured (Go nil interface). -/
def botDetectorInfo (botDetectionService : Option (String → Bool)) (userAgent : String) :
    Bool × Int :=
  match botDetectionService with
  | none => (false, 0)
  | some isBot => (true, if isBot userAgent then 1 else 0)

/-- The grouping key built inline in `initLoggerAggregator` (aggregator.go
lines 33-34), underscore-joined; note the doubled separator before
`aggregatePath`, present in the source. -/
def buildKey (st : logEntry) : String :=
  st.ip ++ "_" ++ toString st.statusCode ++ "_" ++
    st.ua ++ "_" ++ st.method ++ "_" ++ st.proto ++ "_" ++ "_" ++ st.aggregatePath

/-- The accumulator table `map[string]logEntry`, as an association list. -/
abbrev Table := List (String × logEntry)

/-- Go map read `v, ok = logEntries[key]`. -/
def findEntry (t : Table) (k : String) : Option logEntry :=
  (t.find? fun p => p.1 == k).map fun p => p.2

/-- Go map assignment `logEntries[key] = v`: replace the binding if the key
is present, otherwise add it. -/
def insertEntry : Table → String → logEntry → Table
  | [], k, v => [(k, v)]
  | (k1, v1) :: t, k, v =>
      if k1 == k then (k, v) :: t else (k1, v1) :: insertEntry t k v

/-- The accumulator created when no entry exists for the key (aggregator.go
lines 36-58).  Fields omitted by the Go composite literal (notably `count`)
take their zero value.  Note that `sumSizeRespoBody` is seeded with the
record's size while `sumLatency` is seeded with 0. -/
def newAccumulator (c : conf) (now : Int) (st : logEntry) : logEntry :=
  { created := now
    ip := st.ip
    remoteIp := st.remoteIp
    ua := st.ua
    method := st.method
    statusCode := st.statusCode
    isAggregate := true
    lastMod := now
    sumLatency := 0
    maxLatency := st.latency
    minLatency := st.latency
    sumSizeRespoBody := st.responseBodySize
    isBotDetectorEnabled := (botDetectorInfo c.botDetectionService st.ua).1
    isBot := (botDetectorInfo c.botDetectionService st.ua).2
    proto := st.proto
    aggregatePath := st.aggregatePath }

/-- The statistics update applied to the (found or freshly created)
accumulator (aggregator.go lines 60-69): `count++`, max/min latency
updates, and the two running sums.  The four updates of the source are
independent, so they are rendered as one record update. -/
def mergeStats (v st : logEntry) : logEntry :=
  { v with
    count := v.count + 1
    maxLatency := if v.maxLatency < st.latency then st.latency else v.maxLatency
    minLatency := if v.minLatency > st.latency then st.latency else v.minLatency
    sumLatency := v.sumLatency + st.latency
    sumSizeRespoBody := v.sumSizeRespoBody + st.responseBodySize }

/-- The full body of the `case st := <-c` branch of `initLoggerAggregator`
(aggregator.go lines 27-70): look up the key, create an accumulator when
absent, apply the statistics update, store back. -/
def mergeRecord (c : conf) (now : Int) (t : Table) (st : logEntry) : Table :=
  let key := buildKey st
  let v :=
    match findEntry t key with
    | some v => v
    | none => newAccumulator c now st
  insertEntry t key (mergeStats v st)

/-- Merging a sequence of incoming records into the table, in arrival
order. -/
def processRecords (c : conf) (now : Int) (t : Table) (sts : List logEntry) : Table :=
  sts.foldl (mergeRecord c now) t

/-- The summary record emitted by `printLog` (printlog.go lines 53-85) for
an aggregate entry: the always-present fields, the conditional `referer`,
`isBot` and `aggregatePath` fields, and the aggregate branch of line 74.
`meanLatency` is the source's integer division `v.sumLatency /
time.Duration(v.count)` (truncated, hence `Int.tdiv`; the Go division
panics when `count = 0`, which the table invariant rules out).
`meanSizeRespBody` is the float division, idealised over `Rat`. -/
structure AggregateSummary where
  created : Int
  ip : String
  remoteIp : String
  ua : String
  method : String
  proto : String
  statusCode : Int
  counter : Int
  referer : Option String
  isBot : Option Int
  aggregatePath : Option String
  meanLatency : Int
  minLatency : Int
  maxLatency : Int
  meanSizeRespBody : Rat
  sumSizeRespBody : Int
  deriving Repr, DecidableEq

/-- Rendering of one aggregate accumulator by `printLog`. -/
def printLogSummary (v : logEntry) : AggregateSummary :=
  { created := v.created
    ip := v.ip
    remoteIp := v.remoteIp
    ua := v.ua
    method := v.method
    proto := v.proto
    statusCode := v.statusCode
    counter := v.count
    referer := if v.referer ≠ "" then some v.referer else none
    isBot := if v.isBotDetectorEnabled then some v.isBot else none
    aggregatePath := if v.aggregatePath ≠ "" then some v.aggregatePath else none
    meanLatency := v.sumLatency.tdiv v.count
    minLatency := v.minLatency
    maxLatency := v.maxLatency
    meanSizeRespBody :=
      if 0 < v.sumSizeRespoBody ∧ v.count ≠ 0 then
        (v.sumSizeRespoBody : Rat) / (v.count : Rat)
      else 0
    sumSizeRespBody := v.sumSizeRespoBody }

/-- Embeds `printLogs` (aggregator.go lines 93-102): early return on an
empty table, otherwise one summary per accumulator.  (The source's unused
`duration` parameter is dropped.) -/
def printLogs (stats : Table) : List AggregateSummary :=
  if stats.isEmpty then [] else stats.map fun p => printLogSummary p.2

/-- The three event sources multiplexed by the aggregator loop's select:
context cancellation, ticker tick, and an incoming queued record. -/
inductive AggEvent where
  | shutdown
  | tick
  | record (st : logEntry)
  deriving Repr, DecidableEq

/-- Loop-local state of `initLoggerAggregator`: the accumulator table and
whether `t.Stop()` has been called. -/
structure LoopState where
  table : Table := []
  tickerStopped : Bool := false
  deriving Repr, DecidableEq

/-- One iteration of the select loop of `initLoggerAggregator`
(aggregator.go lines 16-73), returning the next state and the summaries
emitted by that iteration.  The `ctx.Done()` branch stops the ticker,
flushes, and resets the table — and, as in the source, does NOT return:
the loop keeps running. -/
def aggregatorStep (c : conf) (now : Int) (s : LoopState) : AggEvent →
    LoopState × List AggregateSummary
  | AggEvent.shutdown => ({ table := [], tickerStopped := true }, printLogs s.table)
  | AggEvent.tick => ({ s with table := [] }, printLogs s.table)
  | AggEvent.record st => ({ s with table := mergeRecord c now s.table st }, [])

/-- Running the (non-terminating) select loop over a finite schedule of
events.  Because the source's `ctx.Done()` branch lacks a `return`, the
cancellation channel — closed, hence forever ready — can be selected again,
and buffered records can still be received after cancellation; schedules
with events after a `shutdown` are therefore realisable (ticks excepted,
once the ticker is stopped). -/
def aggregatorRun (c : conf) (now : Int) (s : LoopState) :
    List AggEvent → LoopState × List (List AggregateSummary)
  | [] => (s, [])
  | e :: es =>
      ((aggregatorRun c now (aggregatorStep c now s e).1 es).1,
        (aggregatorStep c now s e).2 :: (aggregatorRun c now (aggregatorStep c now s e).1 es).2)

/-- Embeds `send` (part_000 lines 164-171): a select with a `default`
branch on a buffered channel of the given capacity.  The queue is the list
of buffered records; the Boolean result records whether the full-queue
warning was emitted.  Totality of this function is the non-blocking
contract: every call returns immediately in either state. -/
def send (capacity : Nat) (queue : List logEntry) (l : logEntry) :
    List logEntry × Bool :=
  if queue.length < capacity then (queue ++ [l], false) else (queue, true)

/-- The request data the middleware reads from the gin context: URL path,
matched route, response status/size, client IP and friends. -/
structure GinRequest where
  urlPath : String := ""
  fullPath : String := ""
  status : Int := 0
  writerSize : Int := 0
  clientIP : String := ""
  method : String := ""
  proto : String := ""
  rawQuery : String := ""
  remoteAddr : String := ""
  headers : List (String × String) := []
  deriving Repr, DecidableEq

/-- What one invocation of the middleware handler does after calling
`c.Next()` (the next handler is invoked on every path, including the
skip branch): nothing, enqueue an aggregate record, or emit a realtime
log. -/
inductive MiddlewareOutcome where
  | skipped
  | enqueued (l : logEntry)
  | logged (l : logEntry)
  deriving Repr, DecidableEq

/-- Embeds the handler returned by `Middleware` (part_000 lines 45-73).
The `skipPaths` set built from `excludedPaths` is list membership.
`buildEntry` abstracts `buildLogEntry` (part_000 lines 77-161), whose
header/IP parsing is outside the aggregation core; it receives the request
and the clamped response body size, as at the call on line 65. -/
def middlewareHandle (c : conf) (buildEntry : GinRequest → Int → logEntry)
    (req : GinRequest) : MiddlewareOutcome :=
  if req.urlPath ∈ c.excludedPaths then MiddlewareOutcome.skipped
  else
    let responseBodySize := if req.writerSize < 0 then 0 else req.writerSize
    let logItem := buildEntry req responseBodySize
    if c.isAggregationEnabled then
      MiddlewareOutcome.enqueued { logItem with isAggregate := true }
    else MiddlewareOutcome.logged logItem

/-- Effect of one middleware invocation on the ingestion queue: only the
aggregation branch touches it, through `send`; the Boolean is the
full-queue warning. -/
def middlewareQueueEffect (c : conf) (buildEntry : GinRequest → Int → logEntry)
    (queue : List logEntry) (req : GinRequest) : List logEntry × Bool :=
  match middlewareHandle c buildEntry req with
  | MiddlewareOutcome.enqueued l => send c.aggregationQueueSize queue l
  | _ => (queue, false)

/-- A sample observation record used in concrete witnesses. -/
def sampleRecord : logEntry :=
  { ip := "10.0.0.1", statusCode := 200, ua := "curl", method := "GET",
    proto := "HTTP/1.1", aggregatePath := "/ping", latency := 5,
    responseBodySize := 7 }

/-- Another sample record in the same grouping series as `sampleRecord`. -/
def sampleRecordB : logEntry :=
  { sampleRecord with latency := 20, responseBodySize := 3 }

/-! ### Basic facts about the association-list table -/

/-- Looking up the key just stored finds the stored value. -/
theorem findEntry_insertEntry_self (t : Table) (k : String) (v : logEntry) :
    findEntry (insertEntry t k v) k = some v := by
  induction t with
  | nil => simp [insertEntry, findEntry, List.find?]
  | cons p t ih =>
      obtain ⟨k1, v1⟩ := p
      by_cases h : k1 == k
      · simp [insertEntry, h, findEntry, List.find?]
      · simpa [insertEntry, h, findEntry, List.find?] using ih

/-- Every binding of the updated table is the new binding or an old one. -/
theorem mem_insertEntry {t : Table} {k : String} {v : logEntry}
    {p : String × logEntry} (hp : p ∈ insertEntry t k v) :
    p = (k, v) ∨ p ∈ t := by
  induction t with
  | nil => simpa [insertEntry] using hp
  | cons q t ih =>
      obtain ⟨k1, v1⟩ := q
      by_cases h : k1 == k
      · rcases (by simpa [insertEntry, h] using hp : p = (k, v) ∨ p ∈ t) with h1 | h1
        · exact Or.inl h1
        · exact Or.inr (List.mem_cons_of_mem _ h1)
      · rcases (by simpa [insertEntry, h] using hp : p = (k1, v1) ∨ p ∈ insertEntry t k v)
          with h1 | h1
        · exact Or.inr (by simp [h1])
        · rcases ih h1 with h2 | h2
          · exact Or.inl h2
          · exact Or.inr (List.mem_cons_of_mem _ h2)

/-- A successful lookup exhibits a binding of the table. -/
theorem findEntry_mem {t : Table} {k : String} {v : logEntry}
    (h : findEntry t k = some v) : (k, v) ∈ t := by
  induction t with
  | nil => simp [findEntry, List.find?] at h
  | cons p t ih =>
      obtain ⟨k1, v1⟩ := p
      by_cases hk : k1 == k
      · have h1 : v1 = v := by simpa [findEntry, List.find?, hk] using h
        have h2 : k1 = k := by simpa using hk
        simp [h1, h2]
      · have h1 : findEntry t k = some v := by simpa [findEntry, List.find?, hk] using h
        exact List.mem_cons_of_mem _ (ih h1)

/-! ### Field-level facts about the statistics update -/

/-- The minimum update of the source is the binary minimum. -/
theorem mergeStats_minLatency (v st : logEntry) :
    (mergeStats v st).minLatency = min v.minLatency st.latency := by
  simp only [mergeStats]
  rw [min_def]
  split <;> split <;> omega

/-- The maximum update of the source is the binary maximum. -/
theorem mergeStats_maxLatency (v st : logEntry) :
    (mergeStats v st).maxLatency = max v.maxLatency st.latency := by
  simp only [mergeStats]
  rw [max_def]
  split <;> split <;> omega

/-! ### Folding a same-key series of records -/

/-- A merged series's count is the starting count plus the series length. -/
theorem foldl_mergeStats_count (l : List logEntry) :
    ∀ v : logEntry, (l.foldl mergeStats v).count = v.count + l.length := by
  induction l with
  | nil => intro v; simp
  | cons st l ih =>
      intro v
      rw [List.foldl_cons, ih]
      simp [mergeStats]
      omega

/-- A merged series's latency sum is the starting sum plus the latencies. -/
theorem foldl_mergeStats_sumLatency (l : List logEntry) :
    ∀ v : logEntry,
      (l.foldl mergeStats v).sumLatency = v.sumLatency + (l.map fun r => r.latency).sum := by
  induction l with
  | nil => intro v; simp
  | cons st l ih =>
      intro v
      rw [List.foldl_cons, ih]
      simp [mergeStats]
      omega

/-- A merged series's size sum is the starting sum plus the sizes. -/
theorem foldl_mergeStats_sumSize (l : List logEntry) :
    ∀ v : logEntry,
      (l.foldl mergeStats v).sumSizeRespoBody =
        v.sumSizeRespoBody + (l.map fun r => r.responseBodySize).sum := by
  induction l with
  | nil => intro v; simp
  | cons st l ih =>
      intro v
      rw [List.foldl_cons, ih]
      simp [mergeStats]
      omega

/-- The running minimum is a lower bound for the start and the series. -/
theorem foldl_mergeStats_minLatency_le (l : List logEntry) :
    ∀ v : logEntry, (l.foldl mergeStats v).minLatency ≤ v.minLatency ∧
      ∀ r ∈ l, (l.foldl mergeStats v).minLatency ≤ r.latency := by
  induction l with
  | nil => intro v; simp
  | cons st l ih =>
      intro v
      rw [List.foldl_cons]
      obtain ⟨h1, h2⟩ := ih (mergeStats v st)
      rw [mergeStats_minLatency] at h1
      refine ⟨le_trans h1 (min_le_left _ _), ?_⟩
      intro r hr
      rcases List.mem_cons.mp hr with rfl | hr
      · exact le_trans h1 (min_le_right _ _)
      · exact h2 r hr

/-- The running minimum is the start or one of the series latencies. -/
theorem foldl_mergeStats_minLatency_mem (l : List logEntry) :
    ∀ v : logEntry, (l.foldl mergeStats v).minLatency = v.minLatency ∨
      ∃ r ∈ l, (l.foldl mergeStats v).minLatency = r.latency := by
  induction l with
  | nil => intro v; left; rfl
  | cons st l ih =>
      intro v
      rw [List.foldl_cons]
      rcases ih (mergeStats v st) with h | ⟨r, hr, h⟩
      · rw [h, mergeStats_minLatency]
        rcases le_total v.minLatency st.latency with hle | hle
        · exact Or.inl (min_eq_left hle)
        · exact Or.inr ⟨st, List.mem_cons_self st l, min_eq_right hle⟩
      · exact Or.inr ⟨r, List.mem_cons_of_mem _ hr, h⟩

/-- The running maximum is an upper bound for the start and the series. -/
theorem foldl_mergeStats_maxLatency_le (l : List logEntry) :
    ∀ v : logEntry, v.maxLatency ≤ (l.foldl mergeStats v).maxLatency ∧
      ∀ r ∈ l, r.latency ≤ (l.foldl mergeStats v).maxLatency := by
  induction l with
  | nil => intro v; simp
  | cons st l ih =>
      intro v
      rw [List.foldl_cons]
      obtain ⟨h1, h2⟩ := ih (mergeStats v st)
      rw [mergeStats_maxLatency] at h1
      refine ⟨le_trans (le_max_left _ _) h1, ?_⟩
      intro r hr
      rcases List.mem_cons.mp hr with rfl | hr
      · exact le_trans (le_max_right _ _) h1
      · exact h2 r hr

/-- The running maximum is the start or one of the series latencies. -/
theorem foldl_mergeStats_maxLatency_mem (l : List logEntry) :
    ∀ v : logEntry, (l.foldl mergeStats v).maxLatency = v.maxLatency ∨
      ∃ r ∈ l, (l.foldl mergeStats v).maxLatency = r.latency := by
  induction l with
  | nil => intro v; left; rfl
  | cons st l ih =>
      intro v
      rw [List.foldl_cons]
      rcases ih (mergeStats v st) with h | ⟨r, hr, h⟩
      · rw [h, mergeStats_maxLatency]
        rcases le_total v.maxLatency st.latency with hle | hle
        · exact Or.inr ⟨st, List.mem_cons_self st l, max_eq_right hle⟩
        · exact Or.inl (max_eq_left hle)
      · exact Or.inr ⟨r, List.mem_cons_of_mem _ hr, h⟩

/-- Merging a series of records that all map to an already-singleton key
keeps the table a singleton and folds the statistics update. -/
theorem processRecords_same_key (c : conf) (now : Int) (k : String) (l : List logEntry) :
    ∀ v : logEntry, (∀ r ∈ l, buildKey r = k) →
      processRecords c now [(k, v)] l = [(k, l.foldl mergeStats v)] := by
  induction l with
  | nil => intro v _; rfl
  | cons st l ih =>
      intro v h
      have hk : buildKey st = k := h st (List.mem_cons_self st l)
      have hstep : mergeRecord c now [(k, v)] st = [(k, mergeStats v st)] := by
        simp [mergeRecord, findEntry, insertEntry, hk, List.find?]
      calc processRecords c now [(k, v)] (st :: l)
          = processRecords c now (mergeRecord c now [(k, v)] st) l := by
            simp [processRecords, List.foldl_cons]
        _ = [(k, l.foldl mergeStats (mergeStats v st))] := by
            rw [hstep]
            exact ih (mergeStats v st) fun r hr => h r (List.mem_cons_of_mem _ hr)
        _ = [(k, (st :: l).foldl mergeStats v)] := by rw [List.foldl_cons]

/-- Merging a nonempty same-key series into the empty table yields the
singleton table holding the folded accumulator, seeded by the first
record. -/
theorem processRecords_single_series (c : conf) (now : Int) (st : logEntry)
    (rest : List logEntry) (h : ∀ r ∈ rest, buildKey r = buildKey st) :
    processRecords c now [] (st :: rest) =
      [(buildKey st, rest.foldl mergeStats (mergeStats (newAccumulator c now st) st))] := by
  have h1 : mergeRecord c now [] st =
      [(buildKey st, mergeStats (newAccumulator c now st) st)] := rfl
  calc processRecords c now [] (st :: rest)
      = processRecords c now (mergeRecord c now [] st) rest := by
        simp [processRecords, List.foldl_cons]
    _ = _ := by rw [h1]; exact processRecords_same_key c now _ rest _ h

/-! ### Reachability invariants of the aggregator loop -/

/-- Every emitted summary is the rendering of some table entry. -/
theorem printLogs_mem {t : Table} {x : AggregateSummary} (hx : x ∈ printLogs t) :
    ∃ p ∈ t, x = printLogSummary p.2 := by
  unfold printLogs at hx
  split at hx
  · simp at hx
  · obtain ⟨p, hp, h⟩ := List.mem_map.mp hx
    exact ⟨p, hp, h.symm⟩

/-- Case analysis for a binding of a post-merge table: it is an old
binding, the update of a found accumulator, or the update of a fresh
accumulator. -/
theorem mergeRecord_entry_cases (c : conf) (now : Int) (t : Table) (st : logEntry)
    {p : String × logEntry} (hp : p ∈ mergeRecord c now t st) :
    p ∈ t ∨
      (∃ v, findEntry t (buildKey st) = some v ∧ p.2 = mergeStats v st) ∨
      p.2 = mergeStats (newAccumulator c now st) st := by
  have hp2 : p ∈ insertEntry t (buildKey st)
      (mergeStats
        (match findEntry t (buildKey st) with
          | some v => v
          | none => newAccumulator c now st) st) := hp
  rcases hfind : findEntry t (buildKey st) with _ | v
  · rw [hfind] at hp2
    rcases mem_insertEntry hp2 with h | h
    · exact Or.inr (Or.inr (by rw [h]))
    · exact Or.inl h
  · rw [hfind] at hp2
    rcases mem_insertEntry hp2 with h | h
    · exact Or.inr (Or.inl ⟨v, rfl, by rw [h]⟩)
    · exact Or.inl h

/-- Any per-accumulator property established at creation-plus-first-merge
and preserved by merges holds for every table entry and underlies every
emitted summary, along any schedule of loop events. -/
theorem aggregatorRun_entries_sound (P : logEntry → Prop) (c : conf) (now : Int)
    (hmerge : ∀ v st, P v → P (mergeStats v st))
    (hnew : ∀ st, P (mergeStats (newAccumulator c now st) st)) :
    ∀ (es : List AggEvent) (s : LoopState), (∀ p ∈ s.table, P p.2) →
      (∀ p ∈ (aggregatorRun c now s es).1.table, P p.2) ∧
      ∀ out ∈ (aggregatorRun c now s es).2, ∀ x ∈ out,
        ∃ v, P v ∧ x = printLogSummary v := by
  intro es
  induction es with
  | nil =>
      intro s hs
      exact ⟨hs, by simp [aggregatorRun]⟩
  | cons e es ih =>
      intro s hs
      have hstep : ∀ p ∈ (aggregatorStep c now s e).1.table, P p.2 := by
        cases e with
        | shutdown => simp [aggregatorStep]
        | tick => simp [aggregatorStep]
        | record st =>
            intro p hp
            simp only [aggregatorStep] at hp
            rcases mergeRecord_entry_cases c now s.table st hp with h | ⟨v, hv, hpv⟩ | hpv
            · exact hs p h
            · rw [hpv]; exact hmerge _ _ (hs _ (findEntry_mem hv))
            · rw [hpv]; exact hnew st
      have hout : ∀ x ∈ (aggregatorStep c now s e).2,
          ∃ v, P v ∧ x = printLogSummary v := by
        cases e with
        | shutdown =>
            intro x hx
            obtain ⟨p, hp, h⟩ := printLogs_mem (by simpa [aggregatorStep] using hx)
            exact ⟨p.2, hs p hp, h⟩
        | tick =>
            intro x hx
            obtain ⟨p, hp, h⟩ := printLogs_mem (by simpa [aggregatorStep] using hx)
            exact ⟨p.2, hs p hp, h⟩
        | record st => simp [aggregatorStep]
      obtain ⟨h1, h2⟩ := ih (aggregatorStep c now s e).1 hstep
      refine ⟨by simpa [aggregatorRun] using h1, ?_⟩
      intro out hmem x hx
      rcases List.mem_cons.mp (by simpa [aggregatorRun] using hmem) with rfl | hmem2
      · exact hout x hx
      · exact h2 out hmem2 x hx

/-! ### Claims -/

/-- Two records whose six grouping fields differ yet collide in the key
builder: the underscore inside a user-agent value is indistinguishable
from the separator. -/
def collideRecA : logEntry :=
  { ip := "1.2.3.4", statusCode := 200, ua := "x_y", method := "m",
    proto := "HTTP/1.1", aggregatePath := "/p" }

/-- Same key as `collideRecA` but a different (ua, method) split. -/
def collideRecB : logEntry :=
  { ip := "1.2.3.4", statusCode := 200, ua := "x", method := "y_m",
    proto := "HTTP/1.1", aggregatePath := "/p" }

/-- C9: there exist two observation records whose six grouping-field
tuples (client IP, status code, user agent, method, protocol, aggregated
path) differ, yet the underscore-concatenating key builder maps them to
the same grouping key. -/
theorem grouping_key_collision :
    ((collideRecA.ip, collideRecA.statusCode, collideRecA.ua, collideRecA.method,
        collideRecA.proto, collideRecA.aggregatePath) ≠
      (collideRecB.ip, collideRecB.statusCode, collideRecB.ua, collideRecB.method,
        collideRecB.proto, collideRecB.aggregatePath)) ∧
    buildKey collideRecA = buildKey collideRecB := by
  constructor
  · decide
  · decide

/-- C5: after a timer-triggered or shutdown-triggered flush the table is
replaced by a fresh empty table, and the next record merged for any key
creates a brand-new accumulator whose count is 1. -/
theorem fresh_table_after_flush (c : conf) (now : Int) (s : LoopState) (st : logEntry) :
    (aggregatorStep c now s AggEvent.tick).1.table = [] ∧
    (aggregatorStep c now s AggEvent.shutdown).1.table = [] ∧
    mergeRecord c now [] st = [(buildKey st, mergeStats (newAccumulator c now st) st)] ∧
    (mergeStats (newAccumulator c now st) st).count = 1 := by
  refine ⟨rfl, rfl, rfl, ?_⟩
  simp [mergeStats, newAccumulator]

/-- C4: `send` is total (the select has a default branch, so the producer
never blocks): with free capacity the record is appended to the queue and
no warning is emitted; at capacity the queue is left unchanged — the
dropped record is not in it, so it can never be dequeued into the
accumulator table — and the warning is emitted. -/
theorem send_nonblocking_drop_policy (capacity : Nat) (queue : List logEntry)
    (l : logEntry) :
    (queue.length < capacity → send capacity queue l = (queue ++ [l], false)) ∧
    (capacity ≤ queue.length →
      send capacity queue l = (queue, true) ∧
      (l ∉ queue → l ∉ (send capacity queue l).1)) := by
  constructor
  · intro h
    simp [send, h]
  · intro h
    have hnot : ¬ queue.length < capacity := by omega
    exact ⟨by simp [send, hnot], fun hl => by simpa [send, hnot] using hl⟩

/-- Witness for C4: with capacity 1, a full queue rejects the new record
with a warning and keeps the queue intact; an empty queue accepts it. -/
theorem send_nonblocking_drop_policy_witness :
    send 1 [sampleRecord] sampleRecordB = ([sampleRecord], true) ∧
    sampleRecordB ∉ (send 1 [sampleRecord] sampleRecordB).1 ∧
    send 1 [] sampleRecordB = ([sampleRecordB], false) :=
  ⟨((send_nonblocking_drop_policy 1 [sampleRecord] sampleRecordB).2 (by decide)).1,
   ((send_nonblocking_drop_policy 1 [sampleRecord] sampleRecordB).2 (by decide)).2
     (by decide),
   (send_nonblocking_drop_policy 1 [] sampleRecordB).1 (by decide)⟩

/-- C2 refutation: the source's `ctx.Done()` branch stops the ticker,
flushes and resets the table but does not leave the loop, and a cancelled
context's channel stays ready forever; so after the shutdown flush
(output index 1) the loop still merges a queued record (index 2) and a
second Done selection flushes it (output index 3, a nonempty flush after
shutdown).  Summaries are projected to (counter, sumSizeRespBody). -/
theorem flush_happens_after_shutdown :
    ((aggregatorRun defaultConf 0 ⟨[], false⟩
        [AggEvent.record sampleRecord, AggEvent.shutdown,
         AggEvent.record sampleRecord, AggEvent.shutdown]).2.map
      fun out => out.map fun x => (x.counter, x.sumSizeRespBody)) =
      [[], [(1, 14)], [], [(1, 14)]] := by
  decide

/-- First record of the C1 failing input: response size 100. -/
def sizeRecA : logEntry :=
  { ip := "10.0.0.2", statusCode := 200, ua := "curl", method := "GET",
    proto := "HTTP/1.1", aggregatePath := "/p", latency := 50,
    responseBodySize := 100 }

/-- Second record of the C1 failing input: same key, response size 200. -/
def sizeRecB : logEntry :=
  { sizeRecA with latency := 20, responseBodySize := 200 }

/-- C1 refutation: merging two same-key records of sizes 100 and 200
yields one summary whose size sum is 400, not 300, and whose mean size is
200, not 150 — the creation path seeds `sumSizeRespoBody` with the first
record's size and the shared merge code then adds it again (contrast
`sumLatency`, seeded with 0). -/
theorem size_sum_double_counts_first_record :
    ((processRecords defaultConf 0 [] [sizeRecA, sizeRecB]).map fun p =>
        (p.2.count, p.2.sumSizeRespoBody, (printLogSummary p.2).sumSizeRespBody)) =
      [(2, 400, 400)] ∧
    ((processRecords defaultConf 0 [] [sizeRecA, sizeRecB]).map fun p =>
        (printLogSummary p.2).meanSizeRespBody) = [200] := by
  constructor
  · decide
  · have h : processRecords defaultConf 0 [] [sizeRecA, sizeRecB] =
        [(buildKey sizeRecA,
          mergeStats (mergeStats (newAccumulator defaultConf 0 sizeRecA) sizeRecA)
            sizeRecB)] := by decide
    have hsum :
        (mergeStats (mergeStats (newAccumulator defaultConf 0 sizeRecA) sizeRecA)
          sizeRecB).sumSizeRespoBody = 400 := by decide
    have hcount :
        (mergeStats (mergeStats (newAccumulator defaultConf 0 sizeRecA) sizeRecA)
          sizeRecB).count = 2 := by decide
    rw [h]
    simp only [List.map_cons, List.map_nil, printLogSummary, hsum, hcount]
    norm_num

/-- C3: merging a nonempty same-key series of records into an empty-window
table puts exactly one accumulator in the table (so the next flush emits
exactly one summary for that key) with count the number of records, min
and max latency the extremes of the series, the latency sum the sum of the
series, and the emitted mean latency the (truncated) quotient of that sum
by the count. -/
theorem aggregate_latency_statistics (c : conf) (now : Int) (st : logEntry)
    (rest : List logEntry)
    (hkey : ∀ r ∈ st :: rest, buildKey r = buildKey st) :
    ∃ v : logEntry,
      processRecords c now [] (st :: rest) = [(buildKey st, v)] ∧
      printLogs (processRecords c now [] (st :: rest)) = [printLogSummary v] ∧
      v.count = ((st :: rest).length : Int) ∧
      v.sumLatency = ((st :: rest).map (fun r => r.latency)).sum ∧
      v.minLatency ∈ (st :: rest).map (fun r => r.latency) ∧
      (∀ d ∈ (st :: rest).map (fun r => r.latency), v.minLatency ≤ d) ∧
      v.maxLatency ∈ (st :: rest).map (fun r => r.latency) ∧
      (∀ d ∈ (st :: rest).map (fun r => r.latency), d ≤ v.maxLatency) ∧
      (printLogSummary v).meanLatency =
        Int.tdiv (((st :: rest).map (fun r : logEntry => r.latency)).sum)
          ((st :: rest).length : Int) := by
  have hrest : ∀ r ∈ rest, buildKey r = buildKey st :=
    fun r hr => hkey r (List.mem_cons_of_mem _ hr)
  set v1 := mergeStats (newAccumulator c now st) st with hv1
  have htab := processRecords_single_series c now st rest hrest
  have hv1count : v1.count = 1 := by simp [hv1, mergeStats, newAccumulator]
  have hv1sum : v1.sumLatency = st.latency := by simp [hv1, mergeStats, newAccumulator]
  have hv1min : v1.minLatency = st.latency := by
    rw [hv1, mergeStats_minLatency]
    simp [newAccumulator]
  have hv1max : v1.maxLatency = st.latency := by
    rw [hv1, mergeStats_maxLatency]
    simp [newAccumulator]
  refine ⟨rest.foldl mergeStats v1, htab, ?_, ?_, ?_, ?_, ?_, ?_, ?_, ?_⟩
  · rw [htab]
    simp [printLogs]
  · rw [foldl_mergeStats_count rest v1, hv1count]
    simp
    omega
  · rw [foldl_mergeStats_sumLatency rest v1, hv1sum]
    simp
  · rcases foldl_mergeStats_minLatency_mem rest v1 with h | ⟨r, hr, h⟩
    · rw [h, hv1min]
      simp
    · rw [h]
      exact List.mem_map.mpr ⟨r, List.mem_cons_of_mem _ hr, rfl⟩
  · intro d hd
    obtain ⟨r, hr, rfl⟩ := List.mem_map.mp hd
    obtain ⟨h1, h2⟩ := foldl_mergeStats_minLatency_le rest v1
    rcases List.mem_cons.mp hr with rfl | hr
    · rw [← hv1min]
      exact h1
    · exact h2 r hr
  · rcases foldl_mergeStats_maxLatency_mem rest v1 with h | ⟨r, hr, h⟩
    · rw [h, hv1max]
      simp
    · rw [h]
      exact List.mem_map.mpr ⟨r, List.mem_cons_of_mem _ hr, rfl⟩
  · intro d hd
    obtain ⟨r, hr, rfl⟩ := List.mem_map.mp hd
    obtain ⟨h1, h2⟩ := foldl_mergeStats_maxLatency_le rest v1
    rcases List.mem_cons.mp hr with rfl | hr
    · rw [← hv1max]
      exact h1
    · exact h2 r hr
  · show Int.tdiv (rest.foldl mergeStats v1).sumLatency (rest.foldl mergeStats v1).count = _
    rw [foldl_mergeStats_sumLatency rest v1, hv1sum,
      foldl_mergeStats_count rest v1, hv1count]
    have hnum : st.latency + (rest.map (fun r : logEntry => r.latency)).sum =
        ((st :: rest).map (fun r : logEntry => r.latency)).sum := by
      simp
    have hden : (1 : Int) + (rest.length : Int) = ((st :: rest).length : Int) := by
      rw [List.length_cons]
      push_cast
      omega
    rw [hnum, hden]

/-- Witness for C3: two same-key records with latencies 5 and 20 produce a
single accumulator whose statistics satisfy the claim. -/
theorem aggregate_latency_statistics_witness :
    ∃ v : logEntry,
      processRecords defaultConf 0 [] (sampleRecord :: [sampleRecordB]) =
        [(buildKey sampleRecord, v)] ∧
      printLogs (processRecords defaultConf 0 [] (sampleRecord :: [sampleRecordB])) =
        [printLogSummary v] ∧
      v.count = ((sampleRecord :: [sampleRecordB]).length : Int) ∧
      v.sumLatency =
        ((sampleRecord :: [sampleRecordB]).map (fun r => r.latency)).sum ∧
      v.minLatency ∈ (sampleRecord :: [sampleRecordB]).map (fun r => r.latency) ∧
      (∀ d ∈ (sampleRecord :: [sampleRecordB]).map (fun r => r.latency),
        v.minLatency ≤ d) ∧
      v.maxLatency ∈ (sampleRecord :: [sampleRecordB]).map (fun r => r.latency) ∧
      (∀ d ∈ (sampleRecord :: [sampleRecordB]).map (fun r => r.latency),
        d ≤ v.maxLatency) ∧
      (printLogSummary v).meanLatency =
        Int.tdiv
          (((sampleRecord :: [sampleRecordB]).map (fun r : logEntry => r.latency)).sum)
          ((sampleRecord :: [sampleRecordB]).length : Int) :=
  aggregate_latency_statistics defaultConf 0 sampleRecord [sampleRecordB] (by decide)

/-- C6: along any schedule of loop events started from the empty table,
every accumulator in the table has count at least 1 — in particular the
divisor used at emission time is nonzero — every emitted summary renders
an accumulator with count at least 1, and flushing an empty table emits
nothing. -/
theorem accumulator_count_ge_one (c : conf) (now : Int) (es : List AggEvent) :
    (∀ p ∈ (aggregatorRun c now ⟨[], false⟩ es).1.table,
      1 ≤ p.2.count ∧ p.2.count ≠ 0) ∧
    (∀ out ∈ (aggregatorRun c now ⟨[], false⟩ es).2, ∀ x ∈ out,
      ∃ v : logEntry, 1 ≤ v.count ∧ v.count ≠ 0 ∧ x = printLogSummary v) ∧
    printLogs [] = [] := by
  obtain ⟨h1, h2⟩ := aggregatorRun_entries_sound (fun v => 1 ≤ v.count) c now
    (fun v st hv => by simp only [mergeStats]; omega)
    (fun st => by simp [mergeStats, newAccumulator])
    es ⟨[], false⟩ (by simp)
  refine ⟨fun p hp => ⟨h1 p hp, ?_⟩, ?_, rfl⟩
  · have := h1 p hp
    omega
  · intro out hout x hx
    obtain ⟨v, hv, hxv⟩ := h2 out hout x hx
    exact ⟨v, hv, by omega, hxv⟩

/-- Witness for C6: after one record event, the single table entry has
count 1 (and a nonzero divisor), and the empty flush emits nothing. -/
theorem accumulator_count_ge_one_witness :
    1 ≤ (mergeStats (newAccumulator defaultConf 0 sampleRecord) sampleRecord).count ∧
    (mergeStats (newAccumulator defaultConf 0 sampleRecord) sampleRecord).count ≠ 0 ∧
    printLogs [] = [] :=
  ⟨((accumulator_count_ge_one defaultConf 0 [AggEvent.record sampleRecord]).1
      (buildKey sampleRecord,
        mergeStats (newAccumulator defaultConf 0 sampleRecord) sampleRecord)
      (by decide)).1,
   ((accumulator_count_ge_one defaultConf 0 [AggEvent.record sampleRecord]).1
      (buildKey sampleRecord,
        mergeStats (newAccumulator defaultConf 0 sampleRecord) sampleRecord)
      (by decide)).2,
   (accumulator_count_ge_one defaultConf 0 []).2.2⟩

/-- C7: merging a record into an existing accumulator stores exactly the
statistics update of that accumulator, and the update leaves the whole
identity snapshot (creation time, ip, remote ip, ua, method, proto,
aggregated path, status code, bot flags, last-modified, aggregate marker)
unchanged: only count, the latency statistics and the size sum move. -/
theorem merge_preserves_identity (c : conf) (now : Int) (t : Table) (st v : logEntry)
    (h : findEntry t (buildKey st) = some v) :
    findEntry (mergeRecord c now t st) (buildKey st) = some (mergeStats v st) ∧
    (mergeStats v st).created = v.created ∧
    (mergeStats v st).ip = v.ip ∧
    (mergeStats v st).remoteIp = v.remoteIp ∧
    (mergeStats v st).ua = v.ua ∧
    (mergeStats v st).method = v.method ∧
    (mergeStats v st).proto = v.proto ∧
    (mergeStats v st).aggregatePath = v.aggregatePath ∧
    (mergeStats v st).statusCode = v.statusCode ∧
    (mergeStats v st).isBot = v.isBot ∧
    (mergeStats v st).isBotDetectorEnabled = v.isBotDetectorEnabled ∧
    (mergeStats v st).lastMod = v.lastMod ∧
    (mergeStats v st).isAggregate = v.isAggregate := by
  refine ⟨?_, rfl, rfl, rfl, rfl, rfl, rfl, rfl, rfl, rfl, rfl, rfl, rfl⟩
  have h2 : mergeRecord c now t st = insertEntry t (buildKey st)
      (mergeStats
        (match findEntry t (buildKey st) with
          | some v => v
          | none => newAccumulator c now st) st) := rfl
  rw [h] at h2
  rw [h2]
  exact findEntry_insertEntry_self t (buildKey st) (mergeStats v st)

/-- The accumulator seeded and merged from `sampleRecord`, used as the
pre-existing table entry of the C7 witness. -/
def identityEntry : logEntry :=
  mergeStats (newAccumulator defaultConf 0 sampleRecord) sampleRecord

/-- A singleton table holding `identityEntry`. -/
def identityTable : Table := [(buildKey sampleRecord, identityEntry)]

/-- A later record of the same series with different measurements. -/
def sampleRecordC : logEntry :=
  { sampleRecord with latency := 99, responseBodySize := 1 }

/-- Witness for C7: merging `sampleRecordC` into the accumulator seeded by
`sampleRecord` keeps every identity field of the accumulator. -/
theorem merge_preserves_identity_witness :
    findEntry (mergeRecord defaultConf 0 identityTable sampleRecordC)
        (buildKey sampleRecordC) = some (mergeStats identityEntry sampleRecordC) ∧
    (mergeStats identityEntry sampleRecordC).created = identityEntry.created ∧
    (mergeStats identityEntry sampleRecordC).ip = identityEntry.ip ∧
    (mergeStats identityEntry sampleRecordC).remoteIp = identityEntry.remoteIp ∧
    (mergeStats identityEntry sampleRecordC).ua = identityEntry.ua ∧
    (mergeStats identityEntry sampleRecordC).method = identityEntry.method ∧
    (mergeStats identityEntry sampleRecordC).proto = identityEntry.proto ∧
    (mergeStats identityEntry sampleRecordC).aggregatePath =
      identityEntry.aggregatePath ∧
    (mergeStats identityEntry sampleRecordC).statusCode = identityEntry.statusCode ∧
    (mergeStats identityEntry sampleRecordC).isBot = identityEntry.isBot ∧
    (mergeStats identityEntry sampleRecordC).isBotDetectorEnabled =
      identityEntry.isBotDetectorEnabled ∧
    (mergeStats identityEntry sampleRecordC).lastMod = identityEntry.lastMod ∧
    (mergeStats identityEntry sampleRecordC).isAggregate =
      identityEntry.isAggregate :=
  merge_preserves_identity defaultConf 0 identityTable sampleRecordC identityEntry
    (by decide)

/-- C8: with no bot-detection collaborator configured, no emitted summary
carries a bot flag at all (the `isBot` field is absent, not "0"), along
any schedule of loop events; with a detector configured, the accumulator
records the detector as enabled and a verdict of 1 exactly when
`IsBot(user agent)` holds — computed once, at accumulator creation. -/
theorem bot_flag_policy (c : conf) (now : Int) (es : List AggEvent) :
    (c.botDetectionService = none →
      ∀ out ∈ (aggregatorRun c now ⟨[], false⟩ es).2, ∀ x ∈ out, x.isBot = none) ∧
    (∀ f : String → Bool, c.botDetectionService = some f → ∀ st : logEntry,
      (newAccumulator c now st).isBotDetectorEnabled = true ∧
      ((newAccumulator c now st).isBot = 1 ↔ f st.ua = true) ∧
      ((newAccumulator c now st).isBot = 0 ↔ f st.ua = false)) := by
  constructor
  · intro hc out hout x hx
    obtain ⟨h1, h2⟩ := aggregatorRun_entries_sound
      (fun v => v.isBotDetectorEnabled = false) c now
      (fun v st hv => by simpa [mergeStats] using hv)
      (fun st => by simp [mergeStats, newAccumulator, botDetectorInfo, hc])
      es ⟨[], false⟩ (by simp)
    obtain ⟨v, hv, rfl⟩ := h2 out hout x hx
    simp [printLogSummary, hv]
  · intro f hc st
    refine ⟨?_, ?_, ?_⟩
    · simp [newAccumulator, botDetectorInfo, hc]
    · simp only [newAccumulator, botDetectorInfo, hc]
      cases hfu : f st.ua <;> simp
    · simp only [newAccumulator, botDetectorInfo, hc]
      cases hfu : f st.ua <;> simp

/-- A record with zero response size (keeps emitted means rational-free). -/
def zeroSizeRecord : logEntry :=
  { ip := "10.0.0.3", statusCode := 200, ua := "curl", method := "GET",
    proto := "HTTP/1.1", aggregatePath := "/z", latency := 4,
    responseBodySize := 0 }

/-- A configuration with a bot detector flagging the user agent "crawler". -/
def botConf : conf :=
  { defaultConf with botDetectionService := some (fun ua => ua == "crawler") }

/-- Witness for C8: the summary flushed for a record under the default
(detector-less) configuration carries no bot flag, and an accumulator
created under `botConf` records the detector as enabled. -/
theorem bot_flag_policy_witness :
    (printLogSummary
        (mergeStats (newAccumulator defaultConf 0 zeroSizeRecord) zeroSizeRecord)).isBot =
      none ∧
    (newAccumulator botConf 0 zeroSizeRecord).isBotDetectorEnabled = true :=
  ⟨(bot_flag_policy defaultConf 0
      [AggEvent.record zeroSizeRecord, AggEvent.shutdown]).1 rfl
      [printLogSummary
        (mergeStats (newAccumulator defaultConf 0 zeroSizeRecord) zeroSizeRecord)]
      (by decide)
      (printLogSummary
        (mergeStats (newAccumulator defaultConf 0 zeroSizeRecord) zeroSizeRecord))
      (by decide),
   ((bot_flag_policy botConf 0 []).2 (fun ua => ua == "crawler") rfl zeroSizeRecord).1⟩

/-- C10: for a request whose URL path is excluded, the middleware calls
the next handler and returns at once: no observation record is built, no
realtime log is emitted, nothing is enqueued, and the ingestion queue
(hence the table it feeds) is left untouched, with no warning. -/
theorem excluded_path_leaves_queue_untouched (c : conf)
    (buildEntry : GinRequest → Int → logEntry) (queue : List logEntry)
    (req : GinRequest) (h : req.urlPath ∈ c.excludedPaths) :
    middlewareHandle c buildEntry req = MiddlewareOutcome.skipped ∧
    middlewareQueueEffect c buildEntry queue req = (queue, false) := by
  have h1 : middlewareHandle c buildEntry req = MiddlewareOutcome.skipped := by
    simp [middlewareHandle, h]
  exact ⟨h1, by simp [middlewareQueueEffect, h1]⟩

/-- A configuration excluding two health-check paths, aggregation on. -/
def skipConf : conf :=
  { defaultConf with
    excludedPaths := ["/health", "/metrics"]
    isAggregationEnabled := true }

/-- Witness for C10: a request for "/health" is skipped and the queue is
unchanged. -/
theorem excluded_path_leaves_queue_untouched_witness :
    middlewareHandle skipConf (fun _ _ => ({} : logEntry))
        ({ urlPath := "/health" } : GinRequest) = MiddlewareOutcome.skipped ∧
    middlewareQueueEffect skipConf (fun _ _ => ({} : logEntry)) [sampleRecord]
        ({ urlPath := "/health" } : GinRequest) = ([sampleRecord], false) :=
  excluded_path_leaves_queue_untouched skipConf (fun _ _ => ({} : logEntry))
    [sampleRecord] ({ urlPath := "/health" } : GinRequest) (by decide)
